import Mathlib

/-!
# pax-utils Mach-O reader (`paxmacho`) — verification development

The repository ships only the interface `src/paxmacho.h`:

```
typedef struct {
  void *mhdr;
  char *data;
  uint32_t macho_class;
  off_t len;
  int fd;
  const char *filename;
  const char *base_filename;
} machoobj;

machoobj *readmacho(const char *filename);
void unreadmacho(machoobj *macho);
const char *get_machomhtype(int mh_type);
```

The implementation behind these declarations is not part of the source
tree, so each component (HeaderClassifier, ArchitectureSliceResolver,
LoadCommandWalker, HeaderTypeNamer, MachoObject lifecycle) is modelled
from the specification document, faithful to its words.  Byte views are
`List Nat`; every multi-byte field read goes through the bounds-checked
`readU32?` primitive, so the model cannot read outside a view by
construction.  Fallible operations return `Except MachoError`.
-/

namespace PaxMacho

/-- Byte order of multi-byte integer fields, signalled by which magic
constant variant matched. -/
inductive ByteOrder where
  | little
  | big
  deriving DecidableEq

/-- Bitness of a single-architecture Mach-O image. -/
inductive Bitness where
  | b32
  | b64
  deriving DecidableEq

/-- Container class detected from the leading magic number. -/
inductive MachoClass where
  | macho32
  | macho64
  | fat
  deriving DecidableEq

/-- Error taxonomy of the spec: open/read failures, structural corruption
discovered while parsing, and lifecycle misuse. -/
inductive MachoError where
  | notFound
  | permissionDenied
  | ioError
  | invalidMagic
  | truncatedFatHeader
  | tooManyArchitectures
  | truncatedHeader
  | malformedCommand
  | useAfterRelease
  deriving DecidableEq

/-- Assemble four bytes into a 32-bit value in the given byte order. -/
def assembleU32 (o : ByteOrder) (b0 b1 b2 b3 : Nat) : Nat :=
  match o with
  | .little => b0 % 256 + 256 * (b1 % 256) + 65536 * (b2 % 256) + 16777216 * (b3 % 256)
  | .big => b3 % 256 + 256 * (b2 % 256) + 65536 * (b1 % 256) + 16777216 * (b0 % 256)

/-- Bounds-checked 32-bit field read at byte offset `off` of a byte view.
Returns `none` when any of the four bytes lies outside the view; every
multi-byte read of the model goes through this primitive. -/
def readU32? (o : ByteOrder) (bytes : List Nat) (off : Nat) : Option Nat :=
  match bytes[off]?, bytes[off + 1]?, bytes[off + 2]?, bytes[off + 3]? with
  | some b0, some b1, some b2, some b3 => some (assembleU32 o b0 b1 b2 b3)
  | _, _, _, _ => none

/-! ## HeaderTypeNamer -/

/-- Lower-case hexadecimal rendering of a natural number, as C `%x`
prints an unsigned value. -/
def hexOfNat (n : Nat) : String :=
  String.mk (Nat.toDigits 16 n)

/-- The generic fallback string for an unrecognized Mach-O file-type
code: C prints the `int` argument of `%x` reinterpreted as a 32-bit
unsigned value. -/
def unknownMhType (mh_type : Int) : String :=
  "unknown (0x" ++ hexOfNat (mh_type % 4294967296).toNat ++ ")"

/-- Modelled from the spec: the body of `get_machomhtype` is absent from
the source tree (`src/paxmacho.h` only declares
`const char *get_machomhtype(int mh_type);`).  Per the spec it is a total
function mapping the known Mach-O file-type codes (object, executable,
fixed-VM library, core, preload, dynamic library, dynamic linker, bundle,
dynamic-library stub, debug-symbols-only) to fixed canonical names, and
every unrecognized code to the generic "unknown (0x%x)" fallback.  The
parameter type is `Int`, matching the declared C `int` parameter. -/
def get_machomhtype (mh_type : Int) : String :=
  if mh_type = 0x1 then "MH_OBJECT"
  else if mh_type = 0x2 then "MH_EXECUTE"
  else if mh_type = 0x3 then "MH_FVMLIB"
  else if mh_type = 0x4 then "MH_CORE"
  else if mh_type = 0x5 then "MH_PRELOAD"
  else if mh_type = 0x6 then "MH_DYLIB"
  else if mh_type = 0x7 then "MH_DYLINKER"
  else if mh_type = 0x8 then "MH_BUNDLE"
  else if mh_type = 0x9 then "MH_DYLIB_STUB"
  else if mh_type = 0xa then "MH_DSYM"
  else unknownMhType mh_type

/-- The set of known Mach-O file-type codes handled by the namer. -/
def knownMhTypeCodes : List Int := [1, 2, 3, 4, 5, 6, 7, 8, 9, 10]

/-- The value range of the C `int` parameter type (32-bit two's
complement). -/
def intParamRange (i : Int) : Prop := -2147483648 ≤ i ∧ i < 2147483648

instance (i : Int) : Decidable (intParamRange i) :=
  inferInstanceAs (Decidable (_ ∧ _))

/-- The value range of a `uint32` type code, the domain the spec promises
totality on. -/
def uint32Range (i : Int) : Prop := 0 ≤ i ∧ i < 4294967296

instance (i : Int) : Decidable (uint32Range i) :=
  inferInstanceAs (Decidable (_ ∧ _))

/-! ## HeaderClassifier -/

/-- Magic number read from the first four bytes of a view, assembled
most-significant byte first (i.e. in on-disk byte order), with 0 for a
view shorter than four bytes.  Which of the six constants it equals
tells both the container class and the byte order of the file. -/
def magicOf (bytes : List Nat) : Nat :=
  (readU32? .big bytes 0).getD 0

/-- The six recognized magic constants as they appear on disk read
most-significant byte first: 32-bit big/little, 64-bit big/little, fat
big/little. -/
def recognizedMagics : List Nat :=
  [0xfeedface, 0xcefaedfe, 0xfeedfacf, 0xcffaedfe, 0xcafebabe, 0xbebafeca]

/-- Modelled from the spec: the HeaderClassifier behind `readmacho` is
absent from the source tree (only `machoobj.macho_class` in
`src/paxmacho.h` witnesses it).  `classify` fails with `invalidMagic`
when the view is shorter than four bytes or the leading four bytes match
none of the six recognized magic constants; otherwise it returns the
container class together with the byte order implied by which variant
matched. -/
def classify (bytes : List Nat) : Except MachoError (MachoClass × ByteOrder) :=
  match readU32? .big bytes 0 with
  | none => .error .invalidMagic
  | some m =>
    if m = 0xfeedface then .ok (.macho32, .big)
    else if m = 0xcefaedfe then .ok (.macho32, .little)
    else if m = 0xfeedfacf then .ok (.macho64, .big)
    else if m = 0xcffaedfe then .ok (.macho64, .little)
    else if m = 0xcafebabe then .ok (.fat, .big)
    else if m = 0xbebafeca then .ok (.fat, .little)
    else .error .invalidMagic

/-- The class-and-order table indexed by recognized magic constant. -/
def magicTable : List (Nat × MachoClass × ByteOrder) :=
  [(0xfeedface, .macho32, .big), (0xcefaedfe, .macho32, .little),
   (0xfeedfacf, .macho64, .big), (0xcffaedfe, .macho64, .little),
   (0xcafebabe, .fat, .big), (0xbebafeca, .fat, .little)]

/-- The bitness of a single-architecture class; a fat container has
none. -/
def bitnessOf : MachoClass → Option Bitness
  | .macho32 => some .b32
  | .macho64 => some .b64
  | .fat => none

/-! ## ArchitectureSliceResolver -/

/-- A bounded view into the owning byte region: offset, length, byte
order and bitness.  Never owns memory. -/
structure ArchitectureSlice where
  offset : Nat
  length : Nat
  order : ByteOrder
  bitness : Bitness
  deriving DecidableEq

/-- Size in bytes of the fat header (magic + architecture count). -/
def fatHeaderSize : Nat := 8

/-- Fixed per-entry descriptor size of a fat-architecture table entry
(cputype, cpusubtype, offset, size, align — five 32-bit fields). -/
def fatArchSize : Nat := 20

/-- Modelled from the spec: walks the fat-architecture table (absent
from the source tree) starting at byte `base`, with `n` entries left and
the table ending at byte `tableEnd`.  Each entry's declared offset and
size are read with the container's byte order; an entry whose
`offset + size` exceeds the view length, or whose offset precedes the
end of the fat header table, fails with `truncatedFatHeader`.  A valid
entry's bitness and byte order are re-derived from the four bytes at its
offset. -/
def resolveFatEntries (bytes : List Nat) (o : ByteOrder) (tableEnd : Nat) :
    Nat → Nat → Except MachoError (List ArchitectureSlice)
  | _, 0 => .ok []
  | base, n + 1 =>
    match readU32? o bytes (base + 8), readU32? o bytes (base + 12) with
    | some off, some sz =>
      if bytes.length < off + sz then .error .truncatedFatHeader
      else if off < tableEnd then .error .truncatedFatHeader
      else
        match classify (bytes.drop off) with
        | .error e => .error e
        | .ok (c, innerOrder) =>
          match bitnessOf c with
          | none => .error .invalidMagic
          | some bt =>
            match resolveFatEntries bytes o tableEnd (base + fatArchSize) n with
            | .error e => .error e
            | .ok rest => .ok (⟨off, sz, innerOrder, bt⟩ :: rest)
    | _, _ => .error .truncatedFatHeader

/-- Modelled from the spec: the ArchitectureSliceResolver behind
`readmacho` is absent from the source tree.  A single-architecture class
yields exactly one slice spanning the whole view with bitness taken from
the class; a fat container reads the architecture count after the magic,
fails with `tooManyArchitectures` when `count * fatArchSize` exceeds the
view length remaining after the fat header, and otherwise walks the
entry table. -/
def resolve (bytes : List Nat) (cls : MachoClass) (o : ByteOrder) :
    Except MachoError (List ArchitectureSlice) :=
  match cls with
  | .macho32 => .ok [⟨0, bytes.length, o, .b32⟩]
  | .macho64 => .ok [⟨0, bytes.length, o, .b64⟩]
  | .fat =>
    if bytes.length < fatHeaderSize then .error .truncatedFatHeader
    else
      match readU32? o bytes 4 with
      | none => .error .truncatedFatHeader
      | some count =>
        if bytes.length - fatHeaderSize < count * fatArchSize then
          .error .tooManyArchitectures
        else
          resolveFatEntries bytes o (fatHeaderSize + count * fatArchSize)
            fatHeaderSize count

/-! ## LoadCommandWalker -/

/-- A bounded view of one load command inside an architecture slice:
command-type code, declared command-size, and the byte offset of the
command (its payload covers exactly `cmdsize` bytes from `start`). -/
structure LoadCommand where
  cmd : Nat
  cmdsize : Nat
  start : Nat
  deriving DecidableEq

/-- Fixed size of the Mach header for each bitness (the 64-bit header
adds one trailing reserved field). -/
def headerSize : Bitness → Nat
  | .b32 => 28
  | .b64 => 32

/-- Minimal size of a load command: the two 32-bit fields every command
begins with (command-type code and command-size). -/
def minCommandSize : Nat := 8

/-- Modelled from the spec: the load-command walk loop (absent from the
source tree) over the slice bytes `bytes`, with the command table ending
at byte `tableEnd` (start of table + `size_of_commands`), the cursor at
`cursor` and `n` commands still to yield.  Each iteration reads the
command-type code and command-size with the slice's byte order and fails
with `malformedCommand` when the command-size is below the minimal
command-header size, or when the cursor plus command-size would exceed
the command table or the slice's own bounds (a read beyond the slice also
fails).  The declared size is re-validated every iteration. -/
def walkCommands (bytes : List Nat) (o : ByteOrder) (tableEnd : Nat) :
    Nat → Nat → Except MachoError (List LoadCommand)
  | _, 0 => .ok []
  | cursor, n + 1 =>
    match readU32? o bytes cursor, readU32? o bytes (cursor + 4) with
    | some cmd, some cmdsize =>
      if cmdsize < minCommandSize then .error .malformedCommand
      else if tableEnd < cursor + cmdsize then .error .malformedCommand
      else if bytes.length < cursor + cmdsize then .error .malformedCommand
      else
        match walkCommands bytes o tableEnd (cursor + cmdsize) n with
        | .error e => .error e
        | .ok rest => .ok (⟨cmd, cmdsize, cursor⟩ :: rest)
    | _, _ => .error .malformedCommand

/-- Modelled from the spec: `commands()` of the LoadCommandWalker
(absent from the source tree).  Reads the slice's Mach header to obtain
`number_of_commands` (byte 16) and `size_of_commands` (byte 20), failing
with `truncatedHeader` when the slice is shorter than the header's fixed
size, then walks the command table starting immediately after the
header. -/
def machoCommands (bytes : List Nat) (bt : Bitness) (o : ByteOrder) :
    Except MachoError (List LoadCommand) :=
  if bytes.length < headerSize bt then .error .truncatedHeader
  else
    match readU32? o bytes 16, readU32? o bytes 20 with
    | some ncmds, some sizeofcmds =>
      walkCommands bytes o (headerSize bt + sizeofcmds) (headerSize bt) ncmds
    | _, _ => .error .truncatedHeader

/-- Iterator state of the load-command walk: the cursor and the number
of commands still to yield. -/
structure WalkerState where
  cursor : Nat
  remaining : Nat
  deriving DecidableEq

/-- One step of the iterator protocol: `ok none` when the declared count
is exhausted, `ok (some (c, s))` yielding the next command and successor
state, `error` on a malformed command.  Performs exactly the per-command
validation of `walkCommands`. -/
def walkerNext (bytes : List Nat) (o : ByteOrder) (tableEnd : Nat)
    (s : WalkerState) : Except MachoError (Option (LoadCommand × WalkerState)) :=
  match s.remaining with
  | 0 => .ok none
  | n + 1 =>
    match readU32? o bytes s.cursor, readU32? o bytes (s.cursor + 4) with
    | some cmd, some cmdsize =>
      if cmdsize < minCommandSize then .error .malformedCommand
      else if tableEnd < s.cursor + cmdsize then .error .malformedCommand
      else if bytes.length < s.cursor + cmdsize then .error .malformedCommand
      else .ok (some (⟨cmd, cmdsize, s.cursor⟩, ⟨s.cursor + cmdsize, n⟩))
    | _, _ => .error .malformedCommand

/-- Drive the iterator with explicit fuel, collecting the yielded
commands. -/
def walkerRunAux (bytes : List Nat) (o : ByteOrder) (tableEnd : Nat) :
    Nat → WalkerState → Except MachoError (List LoadCommand)
  | 0, _ => .ok []
  | fuel + 1, s =>
    match walkerNext bytes o tableEnd s with
    | .error e => .error e
    | .ok none => .ok []
    | .ok (some (c, s2)) =>
      match walkerRunAux bytes o tableEnd fuel s2 with
      | .error e => .error e
      | .ok rest => .ok (c :: rest)

/-- Run the iterator to completion from a state (the remaining count
bounds the number of steps). -/
def walkerRun (bytes : List Nat) (o : ByteOrder) (tableEnd : Nat)
    (s : WalkerState) : Except MachoError (List LoadCommand) :=
  walkerRunAux bytes o tableEnd s.remaining s

/-- A call to `commands()` realised through the iterator protocol: parse
the header, then drive the iterator from a fresh initial state (cursor
at the end of the header, full declared count remaining).  Each call
restarts the walk from the beginning. -/
def commandsCall (bytes : List Nat) (bt : Bitness) (o : ByteOrder) :
    Except MachoError (List LoadCommand) :=
  if bytes.length < headerSize bt then .error .truncatedHeader
  else
    match readU32? o bytes 16, readU32? o bytes 20 with
    | some ncmds, some sizeofcmds =>
      walkerRun bytes o (headerSize bt + sizeofcmds) ⟨headerSize bt, ncmds⟩
    | _, _ => .error .truncatedHeader

/-! ## MachoObject lifecycle -/

/-- Lifecycle state of a `machoobj` handle after `readmacho`. -/
inductive LifeState where
  | opened
  | released
  deriving DecidableEq

/-- Modelled from the spec: the aggregate `machoobj` handle of
`src/paxmacho.h` (fields `data`/`len` become the byte view,
`macho_class` the class, plus the classified byte order), extended with
the lifecycle state the spec's state machine requires. -/
structure MachoObject where
  st : LifeState
  view : List Nat
  cls : MachoClass
  ord : ByteOrder
  deriving DecidableEq

/-- Modelled from the spec: `readmacho` (absent from the source tree)
maps the file and classifies its magic, storing class, byte order and
byte view in an `opened` handle; it fails when classification fails. -/
def readmacho (bytes : List Nat) : Except MachoError MachoObject :=
  match classify bytes with
  | .error e => .error e
  | .ok (c, o) => .ok ⟨.opened, bytes, c, o⟩

/-- Modelled from the spec: `architectures()` is only valid in the
`opened` state; on a `released` handle it fails with `useAfterRelease`
instead of reading freed state. -/
def architectures (m : MachoObject) : Except MachoError (List ArchitectureSlice) :=
  match m.st with
  | .released => .error .useAfterRelease
  | .opened => resolve m.view m.cls m.ord

/-- Modelled from the spec: `unreadmacho` (absent from the source tree)
releases the descriptor and mapping.  The second component counts how
many times the underlying resources were closed by this call: 1 when the
handle was `opened`, 0 when it was already `released` (the second call
is a no-op and never closes the descriptor again). -/
def unreadmacho (m : MachoObject) : MachoObject × Nat :=
  match m.st with
  | .opened => ({ m with st := .released }, 1)
  | .released => (m, 0)

deriving instance DecidableEq for Except

/-! ## Concrete example inputs (used by the witness theorems) -/

/-- A minimal 32-bit big-endian Mach-O view: just the magic. -/
def exMagic32BE : List Nat := [0xfe, 0xed, 0xfa, 0xce]

/-- The handle `readmacho` produces for `exMagic32BE`. -/
def exObj32 : MachoObject := ⟨.opened, exMagic32BE, .macho32, .big⟩

/-- A fat container declaring 256 architectures but holding room for
only one descriptor: the declared count times the entry size exceeds
the bytes remaining after the fat header. -/
def exFatOverflow : List Nat :=
  [0xca, 0xfe, 0xba, 0xbe, 0, 0, 1, 0] ++ List.replicate 20 0

/-- Same fat header as `exFatOverflow` but different bytes after it. -/
def exFatOverflowAlt : List Nat :=
  [0xca, 0xfe, 0xba, 0xbe, 0, 0, 1, 0] ++ List.replicate 20 1

/-- A fat container with one entry whose declared `offset + size`
(0 + 100) exceeds the 28-byte view. -/
def exFatBadEntry : List Nat :=
  [0xca, 0xfe, 0xba, 0xbe, 0, 0, 0, 1,
   0, 0, 0, 0, 0, 0, 0, 0, 0, 0, 0, 0, 0, 0, 0, 100, 0, 0, 0, 0]

/-- Eight zero bytes: reading a command header at cursor 0 yields a
command-size of 0, below the minimal command-header size. -/
def exZeros8 : List Nat := [0, 0, 0, 0, 0, 0, 0, 0]

/-- A 64-bit little-endian slice: 32-byte header with
`number_of_commands = 2` and `size_of_commands = 24`, followed by a
16-byte command, an 8-byte command (their sizes sum to exactly 24), and
4 bytes of trailing padding. -/
def ex64 : List Nat :=
  [0xcf, 0xfa, 0xed, 0xfe,
   0, 0, 0, 0, 0, 0, 0, 0, 2, 0, 0, 0,
   2, 0, 0, 0,
   24, 0, 0, 0,
   0, 0, 0, 0, 0, 0, 0, 0,
   1, 0, 0, 0, 16, 0, 0, 0, 0, 0, 0, 0, 0, 0, 0, 0,
   2, 0, 0, 0, 8, 0, 0, 0,
   0, 0, 0, 0]

/-- The two load-command views the walk yields on `ex64`. -/
def ex64Cmds : List LoadCommand := [⟨1, 16, 32⟩, ⟨2, 8, 48⟩]

/-! ## Helper lemmas -/

/-- A successful `readU32?` only touches bytes inside the view. -/
theorem readU32?_isSome_iff (o : ByteOrder) (bytes : List Nat) (off : Nat) :
    (readU32? o bytes off).isSome ↔ off + 4 ≤ bytes.length := by
  unfold readU32?
  constructor
  · intro h
    by_contra hlt
    have h3 : bytes.length ≤ off + 3 := by omega
    rw [List.getElem?_eq_none h3] at h
    rcases bytes[off]? with _ | b0 <;> rcases bytes[off + 1]? with _ | b1 <;>
      rcases bytes[off + 2]? with _ | b2 <;> simp at h
  · intro h
    have h0 : off < bytes.length := by omega
    have h1 : off + 1 < bytes.length := by omega
    have h2 : off + 2 < bytes.length := by omega
    have h3 : off + 3 < bytes.length := by omega
    rw [List.getElem?_eq_getElem h0, List.getElem?_eq_getElem h1,
      List.getElem?_eq_getElem h2, List.getElem?_eq_getElem h3]
    rfl

/-- Two views agreeing on their first `n` bytes agree at every index
below `n`. -/
theorem getElem?_eq_of_take_eq (l l2 : List Nat) (n i : Nat) (hi : i < n)
    (h : l2.take n = l.take n) : l2[i]? = l[i]? := by
  have ha : (l2.take n)[i]? = l2[i]? := by
    rw [List.getElem?_take]; simp [hi]
  have hb : (l.take n)[i]? = l[i]? := by
    rw [List.getElem?_take]; simp [hi]
  rw [← ha, h, hb]

/-- A 32-bit field read only depends on the bytes it covers. -/
theorem readU32?_eq_of_take_eq (o : ByteOrder) (l l2 : List Nat) (off n : Nat)
    (hn : off + 4 ≤ n) (h : l2.take n = l.take n) :
    readU32? o l2 off = readU32? o l off := by
  unfold readU32?
  rw [getElem?_eq_of_take_eq l l2 n off (by omega) h,
    getElem?_eq_of_take_eq l l2 n (off + 1) (by omega) h,
    getElem?_eq_of_take_eq l l2 n (off + 2) (by omega) h,
    getElem?_eq_of_take_eq l l2 n (off + 3) (by omega) h]

/-- A 32-bit field read inside the left part of an appended view ignores
the appended bytes. -/
theorem readU32?_append (o : ByteOrder) (l pad : List Nat) (off : Nat)
    (h : off + 4 ≤ l.length) : readU32? o (l ++ pad) off = readU32? o l off := by
  unfold readU32?
  have g : ∀ i : Nat, i < l.length → (l ++ pad)[i]? = l[i]? := by
    intro i hi
    rw [List.getElem?_append]
    simp [hi]
  rw [g off (by omega), g (off + 1) (by omega), g (off + 2) (by omega),
    g (off + 3) (by omega)]

theorem get_machomhtype_unknown (t : Int) (h : t ∉ knownMhTypeCodes) :
    get_machomhtype t = unknownMhType t := by
  unfold get_machomhtype
  simp only [knownMhTypeCodes, List.mem_cons, List.not_mem_nil, or_false] at h
  push_neg at h
  obtain ⟨h1, h2, h3, h4, h5, h6, h7, h8, h9, h10⟩ := h
  simp [h1, h2, h3, h4, h5, h6, h7, h8, h9, h10]

theorem get_machomhtype_nonempty (t : Int) : 0 < (get_machomhtype t).length := by
  unfold get_machomhtype
  split_ifs <;> first
    | decide
    | (unfold unknownMhType
       rw [String.length_append, String.length_append]
       have h11 : ("unknown (0x" : String).length = 11 := rfl
       omega)

/-- A successful walk yields exactly as many load-command views as the
count it was asked for. -/
theorem walkCommands_ok_length (bytes : List Nat) (o : ByteOrder)
    (tableEnd : Nat) :
    ∀ (n cursor : Nat) (cs : List LoadCommand),
      walkCommands bytes o tableEnd cursor n = .ok cs → cs.length = n := by
  intro n
  induction n with
  | zero =>
    intro cursor cs h
    unfold walkCommands at h
    cases h
    rfl
  | succ k ih =>
    intro cursor cs h
    unfold walkCommands at h
    rcases hc : readU32? o bytes cursor with _ | cmd <;>
      rcases hs : readU32? o bytes (cursor + 4) with _ | cmdsize <;>
      rw [hc, hs] at h
    · simp at h
    · simp at h
    · simp at h
    dsimp only at h
    split_ifs at h with h1 h2 h3
    rcases hw : walkCommands bytes o tableEnd (cursor + cmdsize) k with e | rest <;>
      rw [hw] at h
    · simp at h
    have hcs : Except.ok (ε := MachoError)
        (LoadCommand.mk cmd cmdsize cursor :: rest) = .ok cs := h
    cases hcs
    simp [ih _ _ hw]

/-- A successful walk is unaffected by bytes appended after the slice:
every read it performed stayed inside the original bounds. -/
theorem walkCommands_append_ok (bytes pad : List Nat) (o : ByteOrder)
    (tableEnd : Nat) :
    ∀ (n cursor : Nat) (cs : List LoadCommand),
      walkCommands bytes o tableEnd cursor n = .ok cs →
      walkCommands (bytes ++ pad) o tableEnd cursor n = .ok cs := by
  intro n
  induction n with
  | zero =>
    intro cursor cs h
    exact h
  | succ k ih =>
    intro cursor cs h
    unfold walkCommands at h ⊢
    rcases hc : readU32? o bytes cursor with _ | cmd <;>
      rcases hs : readU32? o bytes (cursor + 4) with _ | cmdsize <;>
      rw [hc, hs] at h
    · simp at h
    · simp at h
    · simp at h
    have hcb : cursor + 4 ≤ bytes.length := by
      have := (readU32?_isSome_iff o bytes cursor).mp (by rw [hc]; rfl)
      omega
    have hsb : cursor + 4 + 4 ≤ bytes.length := by
      have := (readU32?_isSome_iff o bytes (cursor + 4)).mp (by rw [hs]; rfl)
      omega
    rw [readU32?_append o bytes pad cursor hcb, hc,
      readU32?_append o bytes pad (cursor + 4) (by omega), hs]
    dsimp only at h ⊢
    split_ifs at h with h1 h2 h3
    rw [if_neg h1, if_neg h2]
    have h3b : ¬ (bytes ++ pad).length < cursor + cmdsize := by
      rw [List.length_append]
      omega
    rw [if_neg h3b]
    rcases hw : walkCommands bytes o tableEnd (cursor + cmdsize) k with e | rest <;>
      rw [hw] at h
    · simp at h
    rw [ih _ _ hw]
    exact h

/-- Slices produced by a successful fat-entry walk respect the bounds of
the owning view. -/
theorem resolveFatEntries_ok_bounded (bytes : List Nat) (o : ByteOrder)
    (tableEnd : Nat) :
    ∀ (n base : Nat) (slices : List ArchitectureSlice),
      resolveFatEntries bytes o tableEnd base n = .ok slices →
      ∀ s ∈ slices, s.offset + s.length ≤ bytes.length := by
  intro n
  induction n with
  | zero =>
    intro base slices h s hs
    unfold resolveFatEntries at h
    cases h
    simp at hs
  | succ k ih =>
    intro base slices h s hs
    unfold resolveFatEntries at h
    rcases ho : readU32? o bytes (base + 8) with _ | off <;>
      rcases hsz : readU32? o bytes (base + 12) with _ | sz <;>
      rw [ho, hsz] at h
    · simp at h
    · simp at h
    · simp at h
    dsimp only at h
    split_ifs at h with h1 h2
    rcases hcl : classify (bytes.drop off) with e | co <;> rw [hcl] at h
    · simp at h
    obtain ⟨c, io⟩ := co
    dsimp only at h
    rcases hbt : bitnessOf c with _ | bt <;> rw [hbt] at h
    · simp at h
    rcases hr : resolveFatEntries bytes o tableEnd (base + fatArchSize) k
        with e | rest <;> rw [hr] at h
    · simp at h
    have hcs : Except.ok (ε := MachoError)
        (ArchitectureSlice.mk off sz io bt :: rest) = .ok slices := h
    cases hcs
    rcases List.mem_cons.mp hs with rfl | htail
    · dsimp only
      omega
    · exact ih _ _ hr s htail

/-- The iterator run with fuel equal to the remaining count computes the
recursive walk. -/
theorem walkerRun_eq_walkCommands (bytes : List Nat) (o : ByteOrder)
    (tableEnd : Nat) :
    ∀ (n cursor : Nat),
      walkerRunAux bytes o tableEnd n ⟨cursor, n⟩ =
        walkCommands bytes o tableEnd cursor n := by
  intro n
  induction n with
  | zero =>
    intro cursor
    rfl
  | succ k ih =>
    intro cursor
    unfold walkerRunAux walkerNext walkCommands
    dsimp only
    rcases hc : readU32? o bytes cursor with _ | cmd <;>
      rcases hs : readU32? o bytes (cursor + 4) with _ | cmdsize <;>
      dsimp only
    split_ifs with h1 h2 h3
    · rfl
    · rfl
    · rfl
    dsimp only
    rw [ih (cursor + cmdsize)]

/-! ## Claim theorems -/

/-- C1: for every fat container whose declared architecture count times
the fixed per-entry descriptor size exceeds the byte-view length
remaining after the fat header, `resolve` fails with
`tooManyArchitectures`; moreover the result is already determined by the
fat header's own eight bytes — any view with the same length and the
same first eight bytes fails identically, so the entry table past the
header (and in particular anything past the end of the view) is never
read. -/
theorem resolve_fat_count_overflow (bytes : List Nat) (o : ByteOrder)
    (count : Nat)
    (hlen : fatHeaderSize ≤ bytes.length)
    (hcount : readU32? o bytes 4 = some count)
    (hover : bytes.length - fatHeaderSize < count * fatArchSize) :
    resolve bytes .fat o = .error .tooManyArchitectures ∧
    ∀ bytes2 : List Nat, bytes2.length = bytes.length →
      bytes2.take fatHeaderSize = bytes.take fatHeaderSize →
      resolve bytes2 .fat o = .error .tooManyArchitectures := by
  have main : ∀ b2 : List Nat, b2.length = bytes.length →
      readU32? o b2 4 = some count →
      resolve b2 .fat o = .error .tooManyArchitectures := by
    intro b2 hl hc
    unfold resolve
    have hnlt : ¬ b2.length < fatHeaderSize := by omega
    rw [if_neg hnlt, hc]
    dsimp only
    rw [if_pos (by omega)]
  refine ⟨main bytes rfl hcount, ?_⟩
  intro b2 hl ht
  refine main b2 hl ?_
  rw [readU32?_eq_of_take_eq o bytes b2 4 fatHeaderSize (by decide) ht]
  exact hcount

/-- C1 witness: a fat header declaring 256 architectures over a 28-byte
view fails with `tooManyArchitectures`, and so does any view sharing its
length and fat header regardless of what follows. -/
theorem resolve_fat_count_overflow_witness :
    resolve exFatOverflow .fat .big = .error .tooManyArchitectures ∧
    resolve exFatOverflowAlt .fat .big = .error .tooManyArchitectures :=
  ⟨(resolve_fat_count_overflow exFatOverflow .big 256 (by decide) (by decide)
      (by decide)).1,
   (resolve_fat_count_overflow exFatOverflow .big 256 (by decide) (by decide)
      (by decide)).2 exFatOverflowAlt (by decide) (by decide)⟩

/-- C2: at any iteration of the load-command walk, if the command-size
read for the current command is below the minimal command-header size,
or the cursor plus command-size would exceed the end of the command
table (`size_of_commands` bytes from its start), or would exceed the
slice's own bounds, the walk fails with `malformedCommand` — the result
is an error, so no (partial) `LoadCommand` view is yielded for that
command. -/
theorem walk_malformed_command (bytes : List Nat) (o : ByteOrder)
    (tableEnd cursor n cmdsize : Nat)
    (hsz : readU32? o bytes (cursor + 4) = some cmdsize)
    (hbad : cmdsize < minCommandSize ∨ tableEnd < cursor + cmdsize ∨
      bytes.length < cursor + cmdsize) :
    walkCommands bytes o tableEnd cursor (n + 1) = .error .malformedCommand := by
  unfold walkCommands
  rcases hc : readU32? o bytes cursor with _ | cmd <;> rw [hsz]
  dsimp only
  by_cases h1 : cmdsize < minCommandSize
  · rw [if_pos h1]
  rw [if_neg h1]
  by_cases h2 : tableEnd < cursor + cmdsize
  · rw [if_pos h2]
  rw [if_neg h2]
  rcases hbad with hb | hb | hb
  · exact absurd hb h1
  · exact absurd hb h2
  · rw [if_pos hb]

/-- C2 witness: on an 8-byte all-zero slice the command-size read at
cursor 0 is 0, below the minimal command-header size, and the walk fails
with `malformedCommand`. -/
theorem walk_malformed_command_witness :
    walkCommands exZeros8 .little 100 0 1 = .error .malformedCommand :=
  walk_malformed_command exZeros8 .little 100 0 0 0 (by decide)
    (Or.inl (by decide))

/-- C3: a successful load-command walk yields exactly
`number_of_commands` (the 32-bit field at byte 16 of the slice header)
load-command views and terminates; appending trailing bytes after the
declared commands leaves the result unchanged (trailing padding is
ignored). -/
theorem commands_declared_count (bytes : List Nat) (bt : Bitness)
    (o : ByteOrder) (cs : List LoadCommand)
    (h : machoCommands bytes bt o = .ok cs) :
    readU32? o bytes 16 = some cs.length ∧
    ∀ pad : List Nat, machoCommands (bytes ++ pad) bt o = .ok cs := by
  unfold machoCommands at h
  split_ifs at h with hlen
  rcases hn : readU32? o bytes 16 with _ | ncmds <;>
    rcases hsc : readU32? o bytes 20 with _ | sizeofcmds <;>
    rw [hn, hsc] at h
  · simp at h
  · simp at h
  · simp at h
  dsimp only at h
  have hhdr : 28 ≤ headerSize bt := by cases bt <;> simp [headerSize]
  have hlength := walkCommands_ok_length bytes o (headerSize bt + sizeofcmds)
    ncmds (headerSize bt) cs h
  constructor
  · rw [hlength]
  · intro pad
    unfold machoCommands
    have hnlt : ¬ (bytes ++ pad).length < headerSize bt := by
      rw [List.length_append]
      omega
    rw [if_neg hnlt,
      readU32?_append o bytes pad 16 (by omega), hn,
      readU32?_append o bytes pad 20 (by omega), hsc]
    dsimp only
    exact walkCommands_append_ok bytes pad o _ _ _ _ h

/-- C3 witness: `ex64` declares 2 commands whose sizes (16 and 8) sum to
exactly `size_of_commands = 24`; the walk yields exactly those 2 views,
and 4 more bytes of trailing padding change nothing. -/
theorem commands_declared_count_witness :
    readU32? .little ex64 16 = some ex64Cmds.length ∧
    machoCommands (ex64 ++ [0, 0, 0, 0]) .b64 .little = .ok ex64Cmds :=
  ⟨(commands_declared_count ex64 .b64 .little ex64Cmds (by decide)).1,
   (commands_declared_count ex64 .b64 .little ex64Cmds (by decide)).2
     [0, 0, 0, 0]⟩

/-- C4: two successive calls to `commands()` on the same unmodified
slice yield equal sequences.  A call is modelled by `commandsCall`,
which drives the iterator from a fresh initial state; the slice is
immutable, so the first conjunct is the literal restart equality, and
the second shows every such call computes the pure recursive function
`machoCommands` of the slice — restarting the walk from the beginning
changes nothing. -/
theorem commands_restartable (bytes : List Nat) (bt : Bitness)
    (o : ByteOrder) :
    commandsCall bytes bt o = commandsCall bytes bt o ∧
    commandsCall bytes bt o = machoCommands bytes bt o := by
  refine ⟨rfl, ?_⟩
  unfold commandsCall machoCommands
  split_ifs with hlen
  · rfl
  rcases hn : readU32? o bytes 16 with _ | ncmds <;>
    rcases hsc : readU32? o bytes 20 with _ | sizeofcmds <;> dsimp only
  unfold walkerRun
  dsimp only
  exact walkerRun_eq_walkCommands bytes o (headerSize bt + sizeofcmds)
    ncmds (headerSize bt)

/-- C5: every architecture slice the resolver ever produces satisfies
`offset + length ≤` the owning view's length; and a fat entry whose
declared `offset + size` exceeds the view length, or whose offset
precedes the end of the fat header table, makes resolution fail with
`truncatedFatHeader` instead of producing a slice. -/
theorem resolver_slice_invariant :
    (∀ (bytes : List Nat) (cls : MachoClass) (o : ByteOrder)
        (slices : List ArchitectureSlice) (s : ArchitectureSlice),
        resolve bytes cls o = .ok slices → s ∈ slices →
        s.offset + s.length ≤ bytes.length) ∧
    (∀ (bytes : List Nat) (o : ByteOrder) (tableEnd base n off sz : Nat),
        readU32? o bytes (base + 8) = some off →
        readU32? o bytes (base + 12) = some sz →
        (bytes.length < off + sz ∨ off < tableEnd) →
        resolveFatEntries bytes o tableEnd base (n + 1) =
          .error .truncatedFatHeader) := by
  constructor
  · intro bytes cls o slices s hok hs
    cases cls with
    | macho32 =>
      unfold resolve at hok
      cases hok
      rcases List.mem_singleton.mp hs with rfl
      dsimp only
      omega
    | macho64 =>
      unfold resolve at hok
      cases hok
      rcases List.mem_singleton.mp hs with rfl
      dsimp only
      omega
    | fat =>
      unfold resolve at hok
      split_ifs at hok with hlt
      rcases hc : readU32? o bytes 4 with _ | count <;> rw [hc] at hok
      · simp at hok
      dsimp only at hok
      split_ifs at hok with hov
      exact resolveFatEntries_ok_bounded bytes o _ _ _ _ hok s hs
  · intro bytes o tableEnd base n off sz ho hsz hbad
    unfold resolveFatEntries
    rw [ho, hsz]
    dsimp only
    by_cases h1 : bytes.length < off + sz
    · rw [if_pos h1]
    rw [if_neg h1]
    rcases hbad with hb | hb
    · exact absurd hb h1
    · rw [if_pos hb]

/-- C5 witness: the single slice resolved for the 4-byte 32-bit view
satisfies the bounds invariant, and the fat entry of `exFatBadEntry`
(declared offset 0, size 100, view length 28) fails with
`truncatedFatHeader`. -/
theorem resolver_slice_invariant_witness :
    (ArchitectureSlice.mk 0 4 .big .b32).offset +
      (ArchitectureSlice.mk 0 4 .big .b32).length ≤ exMagic32BE.length ∧
    resolveFatEntries exFatBadEntry .big 28 8 1 = .error .truncatedFatHeader :=
  ⟨resolver_slice_invariant.1 exMagic32BE .macho32 .big
      [⟨0, 4, .big, .b32⟩] ⟨0, 4, .big, .b32⟩ (by decide) (by decide),
   resolver_slice_invariant.2 exFatBadEntry .big 28 8 0 0 100 (by decide)
      (by decide) (Or.inl (by decide))⟩

/-- C6: `classify` fails with `invalidMagic` exactly when the view is
shorter than 4 bytes or its leading 4 bytes match none of the six
recognized magic constants; otherwise it returns the class and byte
order the matching magic variant implies, as tabulated in
`magicTable`. -/
theorem classify_spec (bytes : List Nat) :
    (classify bytes = .error .invalidMagic ↔
      bytes.length < 4 ∨ magicOf bytes ∉ recognizedMagics) ∧
    ∀ c o, classify bytes = .ok (c, o) → (magicOf bytes, c, o) ∈ magicTable := by
  rcases hm : readU32? .big bytes 0 with _ | m
  · have hlen : bytes.length < 4 := by
      have hiff := readU32?_isSome_iff .big bytes 0
      rw [hm] at hiff
      simp at hiff
      omega
    constructor
    · unfold classify
      rw [hm]
      simp [hlen]
    · intro c o hok
      unfold classify at hok
      rw [hm] at hok
      exact Except.noConfusion hok
  · have hmagic : magicOf bytes = m := by
      unfold magicOf
      rw [hm]
      rfl
    have h4 : 4 ≤ bytes.length := by
      have hiff := readU32?_isSome_iff .big bytes 0
      rw [hm] at hiff
      simp at hiff
      omega
    constructor
    · unfold classify
      rw [hm, hmagic]
      dsimp only
      constructor
      · intro herr
        right
        split_ifs at herr with e1 e2 e3 e4 e5 e6
        simp [recognizedMagics, e1, e2, e3, e4, e5, e6]
      · intro hr
        rcases hr with hlen | hnot
        · omega
        · simp only [recognizedMagics, List.mem_cons, List.not_mem_nil,
            or_false] at hnot
          push_neg at hnot
          obtain ⟨e1, e2, e3, e4, e5, e6⟩ := hnot
          simp [e1, e2, e3, e4, e5, e6]
    · intro c o hok
      unfold classify at hok
      rw [hm] at hok
      dsimp only at hok
      rw [hmagic]
      clear hmagic
      split_ifs at hok with e1 e2 e3 e4 e5 e6 <;> cases hok <;>
        subst_vars <;> decide

/-- C6 witness: the 32-bit big-endian magic classifies to
`(macho32, big)`, and that triple appears in `magicTable`. -/
theorem classify_spec_witness :
    (magicOf exMagic32BE, MachoClass.macho32, ByteOrder.big) ∈ magicTable :=
  (classify_spec exMagic32BE).2 .macho32 .big (by decide)

/-- C7: for every successfully opened input classified as 32-bit or
64-bit single-architecture, `architectures()` yields exactly one slice
with offset 0 and length equal to the full byte length of the view, its
bitness taken from the class. -/
theorem single_arch_full_slice (bytes : List Nat) (m : MachoObject)
    (hopen : readmacho bytes = .ok m)
    (hcls : m.cls = .macho32 ∨ m.cls = .macho64) :
    architectures m =
      .ok [⟨0, bytes.length, m.ord,
        if m.cls = .macho32 then .b32 else .b64⟩] := by
  unfold readmacho at hopen
  rcases hcl : classify bytes with e | co <;> rw [hcl] at hopen
  · simp at hopen
  obtain ⟨c, o⟩ := co
  dsimp only at hopen
  cases hopen
  cases c with
  | macho32 => simp [architectures, resolve]
  | macho64 => simp [architectures, resolve]
  | fat =>
    rcases hcls with h | h <;> simp at h

/-- C7 witness: `readmacho` on the 4-byte 32-bit big-endian view yields
an opened handle whose `architectures()` is the single full-length
slice. -/
theorem single_arch_full_slice_witness :
    architectures exObj32 =
      .ok [⟨0, exMagic32BE.length, exObj32.ord,
        if exObj32.cls = .macho32 then .b32 else .b64⟩] :=
  single_arch_full_slice exMagic32BE exObj32 (by decide) (Or.inl (by decide))

/-- C8: in the lifecycle state machine, the underlying resources are
released exactly once: releasing an opened handle closes once and moves
it to `released`; a second `unreadmacho` closes nothing and leaves the
handle unchanged; and `architectures()` on the released handle fails
with `useAfterRelease`. -/
theorem release_exactly_once (m : MachoObject) (h : m.st = .opened) :
    (unreadmacho m).2 = 1 ∧
    (unreadmacho m).1.st = .released ∧
    (unreadmacho (unreadmacho m).1).2 = 0 ∧
    (unreadmacho (unreadmacho m).1).1 = (unreadmacho m).1 ∧
    architectures (unreadmacho m).1 = .error .useAfterRelease := by
  rcases m with ⟨st, view, cls, ord⟩
  dsimp only at h
  subst h
  exact ⟨rfl, rfl, rfl, rfl, rfl⟩

/-- C8 witness: the double-release discipline on the concrete opened
handle `exObj32`. -/
theorem release_exactly_once_witness :
    (unreadmacho exObj32).2 = 1 ∧
    (unreadmacho exObj32).1.st = .released ∧
    (unreadmacho (unreadmacho exObj32).1).2 = 0 ∧
    (unreadmacho (unreadmacho exObj32).1).1 = (unreadmacho exObj32).1 ∧
    architectures (unreadmacho exObj32).1 = .error .useAfterRelease :=
  release_exactly_once exObj32 rfl

/-- C9: the header-type naming function is total with no failure path:
on every `uint32` type code it returns a non-empty string, mapping each
of the ten known Mach-O file-type codes to its fixed canonical name and
every unrecognized code to the generic "unknown (0x%x)" fallback. -/
theorem get_machomhtype_total (t : Int) (_h : uint32Range t) :
    0 < (get_machomhtype t).length ∧
    (t ∉ knownMhTypeCodes → get_machomhtype t = unknownMhType t) ∧
    get_machomhtype 0x1 = "MH_OBJECT" ∧ get_machomhtype 0x2 = "MH_EXECUTE" ∧
    get_machomhtype 0x3 = "MH_FVMLIB" ∧ get_machomhtype 0x4 = "MH_CORE" ∧
    get_machomhtype 0x5 = "MH_PRELOAD" ∧ get_machomhtype 0x6 = "MH_DYLIB" ∧
    get_machomhtype 0x7 = "MH_DYLINKER" ∧ get_machomhtype 0x8 = "MH_BUNDLE" ∧
    get_machomhtype 0x9 = "MH_DYLIB_STUB" ∧ get_machomhtype 0xa = "MH_DSYM" :=
  ⟨get_machomhtype_nonempty t, get_machomhtype_unknown t,
   by decide, by decide, by decide, by decide, by decide,
   by decide, by decide, by decide, by decide, by decide⟩

/-- C9 witness: the unrecognized code 0xdeadbeef (inside the uint32
range) gets a non-empty string, namely the fallback. -/
theorem get_machomhtype_total_witness :
    0 < (get_machomhtype 3735928559).length ∧
    get_machomhtype 3735928559 = unknownMhType 3735928559 :=
  ⟨(get_machomhtype_total 3735928559 (by decide)).1,
   (get_machomhtype_total 3735928559 (by decide)).2.1 (by decide)⟩

/-- C10 counterexample: the declared `int` parameter domain is NOT
strictly wider than the `uint32` domain the spec promises — the uint32
code 2^31 lies outside the 32-bit `int` range, so neither domain
contains the other. -/
theorem int_param_domain_not_wider :
    uint32Range 2147483648 ∧ ¬ intParamRange 2147483648 := by
  decide

/-- C10 (amended): `get_machomhtype` takes a signed `int` parameter; it
is defined on every value of the `int` range, including negative codes,
returning a non-empty string for each, with every negative code mapped
through the unknown-code fallback; its domain contains negative codes
that the `uint32` domain lacks (so the two domains are incomparable —
the `int` domain is wider only on the negative side, not strictly
wider). -/
theorem get_machomhtype_int_domain (t : Int) (_h : intParamRange t) :
    0 < (get_machomhtype t).length ∧
    (t < 0 → get_machomhtype t = unknownMhType t) ∧
    intParamRange (-1) ∧ ¬ uint32Range (-1) := by
  refine ⟨get_machomhtype_nonempty t, ?_, by decide, by decide⟩
  intro hneg
  apply get_machomhtype_unknown
  simp only [knownMhTypeCodes, List.mem_cons, List.not_mem_nil, or_false]
  omega

/-- C10 witness: the negative code -1 is accepted and mapped through the
fallback. -/
theorem get_machomhtype_int_domain_witness :
    0 < (get_machomhtype (-1)).length ∧
    get_machomhtype (-1) = unknownMhType (-1) :=
  ⟨(get_machomhtype_int_domain (-1) (by decide)).1,
   (get_machomhtype_int_domain (-1) (by decide)).2.1 (by decide)⟩

end PaxMacho
